import Mathlib

/-!
Shallow embedding of the jtop sampling-and-state engine:
`src/app.rs`, `src/handler.rs` and `src/ui/processes.rs`.

Modelling conventions:
- `usize` counters are natural numbers; where the source's arithmetic can
  overflow or underflow a 64-bit machine word, the wrap-around is made
  explicit modulo `2 ^ 64` (release-mode Rust semantics).
- `f64` quantities (CPU percentages, memory samples, the unit scaler's
  input) are modelled as rationals.  The unit scaler only divides and
  multiplies by 1024 (a power of two), which is exact on binary floating
  point throughout the normal range, so the rational model is faithful
  there.
- `VecDeque` history windows are lists, oldest element first; `BTreeMap`
  keyed by device name is an association list (the provider reports each
  device name once, so duplicate keys do not arise).
- The `sysinfo` / `systemstat` providers, `Instant` and the regex device
  allow-list are external: a tick takes the provider's readings as input,
  instants are naturals (milliseconds) and the allow-list is an abstract
  predicate on device names carried by the application state.
-/

/-- HISTORY_LEN from `app.rs`: the fixed capacity of every history window. -/
def HISTORY_LEN : Nat := 64

/-- Modulus of 64-bit `usize` arithmetic. -/
def USIZE_MOD : Nat := 2 ^ 64

/-- Wrapping 64-bit subtraction: what release-mode Rust computes for
`a - b` on `usize` (debug builds panic instead when `b > a`). -/
def wrapSub (a b : Nat) : Nat :=
  (a % USIZE_MOD + (USIZE_MOD - b % USIZE_MOD)) % USIZE_MOD

/-- DiskInfo from `app.rs`: one cumulative (or delta) sector reading. -/
structure DiskInfo where
  r_sectors : Nat
  w_sectors : Nat
deriving DecidableEq

/-- The `Default` derive on `DiskInfo`: both counters zero. -/
def DiskInfo.zero : DiskInfo := ⟨0, 0⟩

/-- SortDirection from `ui/processes.rs`. -/
inductive SortDirection where
  | Ascending
  | Descending
deriving DecidableEq

/-- SortDirection::reversed. -/
def SortDirection.reversed : SortDirection → SortDirection
  | .Ascending => .Descending
  | .Descending => .Ascending

/-- Column from `ui/processes.rs`. -/
inductive Column where
  | Pid
  | Name
  | Cpu
  | Memory
  | DiskRead
  | DiskWrite
deriving DecidableEq

/-- The `#[default]` attribute on `Column::Cpu`. -/
def Column.default : Column := .Cpu

/-- Column::default_sort_direction. -/
def Column.default_sort_direction : Column → SortDirection
  | .Pid | .Name => .Ascending
  | .Cpu | .Memory | .DiskRead | .DiskWrite => .Descending

/-- ProcessInfo from `app.rs`.  The pid is a natural, the CPU share (an
`f64` percentage) a rational, the name a list of characters. -/
structure ProcessInfo where
  pid : Nat
  cpu : ℚ
  mem : Nat
  name : List Char
  disk_r : Nat
  disk_w : Nat
deriving DecidableEq

/-- Lexicographic comparison of character sequences by code point: Rust's
`str::cmp` (byte-lexicographic on UTF-8, which orders code points the same
way). -/
def lexCompare : List Char → List Char → Ordering
  | [], [] => .eq
  | [], _ :: _ => .lt
  | _ :: _, [] => .gt
  | a :: as, b :: bs =>
    match compare a b with
    | .eq => lexCompare as bs
    | o => o

/-- Column::compare_by from `ui/processes.rs`.  Note the Name arm: the
source lowercases only the first argument, `p1.name.to_lowercase().cmp(&p2.name)`
(Char.toLower is ASCII lowercasing, which agrees with Rust on ASCII names). -/
def Column.compare_by : Column → ProcessInfo → ProcessInfo → Ordering
  | .Pid, p1, p2 => compare p1.pid p2.pid
  | .Name, p1, p2 => lexCompare (p1.name.map Char.toLower) p2.name
  | .Cpu, p1, p2 => compare p1.cpu p2.cpu
  | .Memory, p1, p2 => compare p1.mem p2.mem
  | .DiskRead, p1, p2 => compare p1.disk_r p2.disk_r
  | .DiskWrite, p1, p2 => compare p1.disk_w p2.disk_w

/-- MemPrefix from `app.rs`: the memory unit scale. -/
inductive MemPrefix where
  | Byte
  | Kilo
  | Mega
  | Giga
  | Tera
  | Peta
deriving DecidableEq

/-- MemPrefix::MULTIPLIER (the `u64` 1024, cast to `f64` at each use). -/
def MemPrefix.MULTIPLIER : ℚ := 1024

/-- MemPrefix::PREFIXES, in declaration order. -/
def MemPrefix.PREFIXES : List MemPrefix :=
  [.Byte, .Kilo, .Mega, .Giga, .Tera, .Peta]

/-- The enum discriminant (`self as i32` in `MemPrefix::convert`). -/
def MemPrefix.rank : MemPrefix → Nat
  | .Byte => 0
  | .Kilo => 1
  | .Mega => 2
  | .Giga => 3
  | .Tera => 4
  | .Peta => 5

/-- The loop body of `MemPrefix::find_best`, peeling the list of scales:
return `(bytes, p)` at the first scale that leaves `bytes` below the
multiplier, dividing by the multiplier otherwise; when the loop runs out,
undo the last division and return the largest scale. -/
def findBestFrom : List MemPrefix → ℚ → ℚ × MemPrefix
  | [], bytes => (bytes * MemPrefix.MULTIPLIER, .Peta)
  | p :: ps, bytes =>
    if bytes < MemPrefix.MULTIPLIER then (bytes, p)
    else findBestFrom ps (bytes / MemPrefix.MULTIPLIER)

/-- MemPrefix::find_best from `app.rs`. -/
def MemPrefix.find_best (bytes : ℚ) : ℚ × MemPrefix :=
  findBestFrom MemPrefix.PREFIXES bytes

/-- MemPrefix::convert from `app.rs`. -/
def MemPrefix.convert (p : MemPrefix) (bytes : ℚ) : ℚ :=
  bytes / MemPrefix.MULTIPLIER ^ p.rank

/-- InputState from `app.rs`: the interaction state machine's state. -/
inductive InputState where
  | ProcessesSortSelection (column : Column) (direction : SortDirection)
  | ProcessesSearch (old_column : Option Column)
      (old_direction : Option SortDirection) (search : List Char)
deriving DecidableEq

/-- The `Default` impl on `InputState`: the default column with its default
direction. -/
def InputState.start : InputState :=
  .ProcessesSortSelection Column.default Column.default.default_sort_direction

/-- The modifier keys of a `crossterm` key event that the handler looks at. -/
structure KeyModifiers where
  ctrl : Bool
  shift : Bool
  alt : Bool
deriving DecidableEq

/-- KeyModifiers::CONTROL: exactly the control flag. -/
def KeyModifiers.CONTROL : KeyModifiers := ⟨true, false, false⟩

/-- No modifier held. -/
def noMods : KeyModifiers := ⟨false, false, false⟩

/-- The key codes `handle_key_events` dispatches on. -/
inductive KeyCode where
  | Char (c : Char)
  | Esc
  | Backspace
  | Other
deriving DecidableEq

/-- KeyEventKind from `crossterm`. -/
inductive KeyEventKind where
  | Press
  | Repeat
  | Release
deriving DecidableEq

/-- A key event as the handler consumes it. -/
structure KeyEvent where
  code : KeyCode
  modifiers : KeyModifiers
  kind : KeyEventKind
deriving DecidableEq

/-- Application state (`App` from `app.rs`).  The provider handles
(`system`, `systemstat`) and the render config are external and omitted;
`disk_regexes` is the abstract allow-list predicate `is_disk`.  The field
written `mem_prefix` in the source is `memPfx` here. -/
structure App where
  running : Bool
  input_state : InputState
  cpu_history : List (List ℚ)
  mem_history : List ℚ
  mem_total : ℚ
  memPfx : MemPrefix
  processes : List ProcessInfo
  disks : List (String × DiskInfo × List DiskInfo)
  last_refresh : Nat
  is_disk : String → Bool

/-- App::quit from `app.rs`. -/
def App.quit (app : App) : App := { app with running := false }

/-- change_processes_sort_into from `handler.rs`.  In the source the
else-branch first assigns `*column = selected_column` and then reads
`column.default_sort_direction()`, so the default direction taken is the
newly selected column's. -/
def change_processes_sort_into (app : App) (selected_column : Column) : App :=
  match app.input_state with
  | .ProcessesSortSelection column direction =>
    if column = selected_column then
      { app with input_state := .ProcessesSortSelection column direction.reversed }
    else
      { app with input_state :=
          .ProcessesSortSelection selected_column selected_column.default_sort_direction }
  | _ => app

/-- The sort-selection arm of the state dispatch in `handle_key_events`. -/
def handleSortKey (e : KeyEvent) (column : Column) (direction : SortDirection)
    (app : App) : App :=
  match e.code with
  | KeyCode.Char c =>
    if c = '/' then
      { app with input_state := .ProcessesSearch (some column) (some direction) [] }
    else if c = 'q' then App.quit app
    else if c = 'c' ∨ c = 'C' then change_processes_sort_into app .Cpu
    else if c = 'p' ∨ c = 'P' then change_processes_sort_into app .Pid
    else if c = 'n' ∨ c = 'N' then change_processes_sort_into app .Name
    else if c = 'm' ∨ c = 'M' then change_processes_sort_into app .Memory
    else if c = 'r' ∨ c = 'R' then change_processes_sort_into app .DiskRead
    else if c = 'w' ∨ c = 'W' then change_processes_sort_into app .DiskWrite
    else app
  | _ => app

/-- The search arm of the state dispatch in `handle_key_events`: Esc
restores the saved sort state, Ctrl-W clears the text, a plain character
(on press or repeat) is appended, backspace (on press or repeat) drops the
last character. -/
def handleSearchKey (e : KeyEvent) (oc : Option Column) (od : Option SortDirection)
    (s : List Char) (app : App) : App :=
  match e.code with
  | KeyCode.Esc =>
    let column := oc.getD Column.default
    let direction := od.getD column.default_sort_direction
    { app with input_state := .ProcessesSortSelection column direction }
  | KeyCode.Char c =>
    if (c = 'w' ∨ c = 'W') ∧ e.modifiers.ctrl = true then
      { app with input_state := .ProcessesSearch oc od [] }
    else if e.kind = .Press ∨ e.kind = .Repeat then
      { app with input_state := .ProcessesSearch oc od (s ++ [c]) }
    else app
  | KeyCode.Backspace =>
    if e.kind = .Press ∨ e.kind = .Repeat then
      { app with input_state := .ProcessesSearch oc od s.dropLast }
    else app
  | _ => app

/-- handle_key_events from `handler.rs`: Ctrl-C quits from any state and
returns before the state-specific dispatch; otherwise the current
interaction state's arm handles the key. -/
def handle_key_events (e : KeyEvent) (app : App) : App :=
  if (e.code = KeyCode.Char 'c' ∨ e.code = KeyCode.Char 'C') ∧
      e.modifiers = KeyModifiers.CONTROL then
    App.quit app
  else
    match app.input_state with
    | .ProcessesSortSelection column direction => handleSortKey e column direction app
    | .ProcessesSearch oc od s => handleSearchKey e oc od s app

/-- MINIMUM_CPU_UPDATE_INTERVAL of the `sysinfo` provider, in
milliseconds; its exact value is immaterial to the engine's properties. -/
def MINIMUM_CPU_UPDATE_INTERVAL : Nat := 200

/-- Evict the oldest element of a window and append one sample:
`pop_front` followed by `push_back`. -/
def popPush {α : Type} (w : List α) (x : α) : List α := w.drop 1 ++ [x]

/-- The per-core CPU refresh: `cpu_history.iter_mut().zip(cpus)` pops and
pushes on each zipped pair; windows (or readings) beyond the shorter list
are untouched (or ignored). -/
def zipPopPush : List (List ℚ) → List ℚ → List (List ℚ)
  | [], _ => []
  | hs, [] => hs
  | h :: hs, c :: cs => popPush h c :: zipPopPush hs cs

/-- One device's update inside `App::tick`: push the wrapped difference of
the counters onto the history and store the current reading as previous. -/
def diskEntryUpdate (current : DiskInfo) :
    DiskInfo × List DiskInfo → DiskInfo × List DiskInfo
  | (prev, history) =>
    (current,
      popPush history
        ⟨wrapSub current.r_sectors prev.r_sectors,
          wrapSub current.w_sectors prev.w_sectors⟩)

/-- `self.disks.entry(name).or_insert((default, zero window))` followed by
the update: the association-list form of the `BTreeMap` entry API. -/
def updateAssoc (m : List (String × DiskInfo × List DiskInfo)) (name : String)
    (current : DiskInfo) : List (String × DiskInfo × List DiskInfo) :=
  match m with
  | [] =>
    [(name, diskEntryUpdate current (DiskInfo.zero, List.replicate HISTORY_LEN DiskInfo.zero))]
  | (n, e) :: rest =>
    if n = name then (n, diskEntryUpdate current e) :: rest
    else (n, e) :: updateAssoc rest name current

/-- Association-list lookup in the device table. -/
def lookupDisk (m : List (String × DiskInfo × List DiskInfo)) (name : String) :
    Option (DiskInfo × List DiskInfo) :=
  match m with
  | [] => none
  | (n, e) :: rest => if n = name then some e else lookupDisk rest name

/-- The disk part of `App::tick`: `block_device_statistics()` with
`unwrap_or_default()` (a failed enumeration becomes the empty collection),
filtered by the allow-list, folded into the device table. -/
def diskRefresh (isDisk : String → Bool)
    (stats : Option (List (String × DiskInfo)))
    (m : List (String × DiskInfo × List DiskInfo)) :
    List (String × DiskInfo × List DiskInfo) :=
  ((stats.getD []).filter (fun nc => isDisk nc.1)).foldl
    (fun acc nc => updateAssoc acc nc.1 nc.2) m

/-- One tick's readings from the providers.  `disk_stats` is `none` when
`block_device_statistics()` returns an error; `processes` is the snapshot
list `refresh_processes` plus the `ProcessInfo::new` mapping produce. -/
structure TickInput where
  now : Nat
  cpu_usages : List ℚ
  used_memory : ℚ
  processes : List ProcessInfo
  disk_stats : Option (List (String × DiskInfo))

/-- App::tick from `app.rs`: refresh CPU history only when the minimum
update interval has elapsed; always refresh memory history, the process
snapshot and the disk table. -/
def App.tick (input : TickInput) (app : App) : App :=
  let app1 :=
    if MINIMUM_CPU_UPDATE_INTERVAL ≤ input.now - app.last_refresh then
      { app with
          last_refresh := input.now
          cpu_history := zipPopPush app.cpu_history input.cpu_usages }
    else app
  let app2 :=
    { app1 with
        mem_history := popPush app1.mem_history (app1.memPfx.convert input.used_memory) }
  let app3 := { app2 with processes := input.processes }
  { app3 with disks := diskRefresh app3.is_disk input.disk_stats app3.disks }

/-- The provider readings `App::new` consumes at construction. -/
structure InitInput where
  now : Nat
  cpu_count : Nat
  total_memory : ℚ
  processes : List ProcessInfo
  disk_stats : Option (List (String × DiskInfo))

/-- App::new from `app.rs`: every window pre-filled with zeros, the memory
scale chosen once from total memory, and each device present at
construction stored with its construction-time reading as the previous
value (and an all-zero history). -/
def App.new (isDisk : String → Bool) (init : InitInput) : App :=
  { running := true
    input_state := InputState.start
    cpu_history := List.replicate init.cpu_count (List.replicate HISTORY_LEN 0)
    mem_history := List.replicate HISTORY_LEN 0
    mem_total := (MemPrefix.find_best init.total_memory).1
    memPfx := (MemPrefix.find_best init.total_memory).2
    processes := init.processes
    disks :=
      ((init.disk_stats.getD []).filter (fun nc => isDisk nc.1)).map
        (fun nc => (nc.1, nc.2, List.replicate HISTORY_LEN DiskInfo.zero))
    last_refresh := init.now
    is_disk := isDisk }

/-- Every history window of the application has the fixed length
`HISTORY_LEN`: each per-core CPU window, the memory window, and every
device record's delta window. -/
def windowsInv (app : App) : Prop :=
  (∀ w ∈ app.cpu_history, w.length = HISTORY_LEN) ∧
  app.mem_history.length = HISTORY_LEN ∧
  ∀ e ∈ app.disks, e.2.2.length = HISTORY_LEN

/-- The text-editing commands available in search mode. -/
inductive EditCmd where
  | insert (c : Char)
  | backspace
  | wordErase

/-- The key event each text-editing command arrives as (word-erase is
Ctrl-W, which is what Ctrl-Backspace sends). -/
def EditCmd.toEvent : EditCmd → KeyEvent
  | .insert c => ⟨.Char c, noMods, .Press⟩
  | .backspace => ⟨.Backspace, noMods, .Press⟩
  | .wordErase => ⟨.Char 'w', KeyModifiers.CONTROL, .Press⟩

/-- The `/` keypress that enters search mode. -/
def enterSearchKey : KeyEvent := ⟨.Char '/', noMods, .Press⟩

/-- The Esc keypress that cancels search mode. -/
def cancelKey : KeyEvent := ⟨.Esc, noMods, .Press⟩

/-- The Ctrl-C keypress. -/
def ctrlCKey : KeyEvent := ⟨.Char 'c', KeyModifiers.CONTROL, .Press⟩

/-- A process snapshot that only carries a name. -/
def procNamed (s : List Char) : ProcessInfo := ⟨0, 0, 0, s, 0, 0⟩

/-- Construction-time provider readings with one disk, `sda`, already
present at cumulative `(100, 50)` sectors. -/
def sampleInit : InitInput :=
  { now := 0
    cpu_count := 1
    total_memory := 0
    processes := []
    disk_stats := some [("sda", ⟨100, 50⟩)] }

/-- First tick's readings: `sda` has advanced to cumulative `(150, 80)`. -/
def sampleTick : TickInput :=
  { now := 1000
    cpu_usages := [0]
    used_memory := 0
    processes := []
    disk_stats := some [("sda", ⟨150, 80⟩)] }

/-- A freshly constructed application over `sampleInit`, every device name
admitted by the allow-list. -/
def sampleApp : App := App.new (fun _ => true) sampleInit

/-- The sample application put into the `Name`-ascending sort state. -/
def sampleSortApp : App :=
  { sampleApp with input_state := .ProcessesSortSelection .Name .Ascending }

/-- A tick whose readings arrive sooner than the minimum CPU update
interval after the last refresh. -/
def earlyTick : TickInput :=
  { now := 10
    cpu_usages := [50]
    used_memory := 7
    processes := [procNamed ['x']]
    disk_stats := some [("sda", ⟨160, 90⟩)] }

/-- A tick on which the disk enumeration failed. -/
def failedDiskTick : TickInput :=
  { now := 1000
    cpu_usages := [0]
    used_memory := 0
    processes := []
    disk_stats := none }

/-!  Theorems  -/

/-- C1: at a counter regression (previous cumulative `(1, 1)`, current
`(0, 0)`) the delta the tick pushes is the wrapped value `2 ^ 64 - 1`,
not the clamp-to-zero value `max 0 (0 - 1) = 0` the specification
states (debug builds panic on the same subtraction instead). -/
theorem c1_disk_delta_wraps_on_regression :
    wrapSub 0 1 = 2 ^ 64 - 1 ∧
    lookupDisk
        (diskRefresh (fun _ => true) (some [("sda", ⟨0, 0⟩)])
          [("sda", ⟨1, 1⟩, List.replicate HISTORY_LEN DiskInfo.zero)]) "sda" =
      some (⟨0, 0⟩, List.replicate 63 DiskInfo.zero ++ [⟨2 ^ 64 - 1, 2 ^ 64 - 1⟩]) := by
  constructor
  · decide
  · decide

/-- C2: the Name comparator lowercases only its first argument, so the
processes named `B` and `a` each compare Greater than the other: the
comparator is not antisymmetric, hence not a total order. -/
theorem c2_name_comparator_both_greater :
    Column.compare_by .Name (procNamed ['B']) (procNamed ['a']) = .gt ∧
    Column.compare_by .Name (procNamed ['a']) (procNamed ['B']) = .gt := by
  constructor
  · decide
  · decide

/-- C10: `find_best b` returns `(v, p)` with `v * 1024 ^ rank p = b`,
`convert p b = v`, and `v < 1024` whenever `p` is not the largest scale. -/
theorem c10_find_best_exact (b : ℚ) (_hb : 0 ≤ b) :
    (MemPrefix.find_best b).1 * 1024 ^ (MemPrefix.find_best b).2.rank = b ∧
    MemPrefix.convert (MemPrefix.find_best b).2 b = (MemPrefix.find_best b).1 ∧
    ((MemPrefix.find_best b).2 ≠ MemPrefix.Peta → (MemPrefix.find_best b).1 < 1024) := by
  have hM : MemPrefix.MULTIPLIER = (1024 : ℚ) := rfl
  have hM0 : (1024 : ℚ) ≠ 0 := by norm_num
  unfold MemPrefix.find_best MemPrefix.PREFIXES
  simp only [findBestFrom, hM]
  split_ifs with h0 h1 h2 h3 h4 h5
  · exact ⟨by norm_num [MemPrefix.rank],
      by norm_num [MemPrefix.convert, MemPrefix.rank, hM],
      fun _ => h0⟩
  · refine ⟨?_, ?_, fun _ => h1⟩
    · show b / 1024 * 1024 ^ MemPrefix.rank .Kilo = b
      rw [MemPrefix.rank]
      simp only [pow_succ, pow_zero, one_mul, ← mul_assoc]
      rw [div_mul_cancel₀ _ hM0]
    · show MemPrefix.convert .Kilo b = b / 1024
      rw [MemPrefix.convert, MemPrefix.rank, hM]
      norm_num
  · refine ⟨?_, ?_, fun _ => h2⟩
    · show b / 1024 / 1024 * 1024 ^ MemPrefix.rank .Mega = b
      rw [MemPrefix.rank]
      simp only [pow_succ, pow_zero, one_mul, ← mul_assoc]
      rw [div_mul_cancel₀ _ hM0, div_mul_cancel₀ _ hM0]
    · show MemPrefix.convert .Mega b = b / 1024 / 1024
      rw [MemPrefix.convert, MemPrefix.rank, hM]
      rw [div_div]
      norm_num
  · refine ⟨?_, ?_, fun _ => h3⟩
    · show b / 1024 / 1024 / 1024 * 1024 ^ MemPrefix.rank .Giga = b
      rw [MemPrefix.rank]
      simp only [pow_succ, pow_zero, one_mul, ← mul_assoc]
      rw [div_mul_cancel₀ _ hM0, div_mul_cancel₀ _ hM0, div_mul_cancel₀ _ hM0]
    · show MemPrefix.convert .Giga b = b / 1024 / 1024 / 1024
      rw [MemPrefix.convert, MemPrefix.rank, hM]
      rw [div_div, div_div]
      norm_num
  · refine ⟨?_, ?_, fun _ => h4⟩
    · show b / 1024 / 1024 / 1024 / 1024 * 1024 ^ MemPrefix.rank .Tera = b
      rw [MemPrefix.rank]
      simp only [pow_succ, pow_zero, one_mul, ← mul_assoc]
      rw [div_mul_cancel₀ _ hM0, div_mul_cancel₀ _ hM0, div_mul_cancel₀ _ hM0,
        div_mul_cancel₀ _ hM0]
    · show MemPrefix.convert .Tera b = b / 1024 / 1024 / 1024 / 1024
      rw [MemPrefix.convert, MemPrefix.rank, hM]
      rw [div_div, div_div, div_div]
      norm_num
  · refine ⟨?_, ?_, fun _ => h5⟩
    · show b / 1024 / 1024 / 1024 / 1024 / 1024 * 1024 ^ MemPrefix.rank .Peta = b
      rw [MemPrefix.rank]
      simp only [pow_succ, pow_zero, one_mul, ← mul_assoc]
      rw [div_mul_cancel₀ _ hM0, div_mul_cancel₀ _ hM0, div_mul_cancel₀ _ hM0,
        div_mul_cancel₀ _ hM0, div_mul_cancel₀ _ hM0]
    · show MemPrefix.convert .Peta b = b / 1024 / 1024 / 1024 / 1024 / 1024
      rw [MemPrefix.convert, MemPrefix.rank, hM]
      rw [div_div, div_div, div_div, div_div]
      norm_num
  · refine ⟨?_, ?_, fun hne => absurd rfl hne⟩
    · show b / 1024 / 1024 / 1024 / 1024 / 1024 / 1024 * 1024 *
          1024 ^ MemPrefix.rank .Peta = b
      rw [MemPrefix.rank]
      simp only [pow_succ, pow_zero, one_mul, ← mul_assoc]
      rw [div_mul_cancel₀ _ hM0, div_mul_cancel₀ _ hM0, div_mul_cancel₀ _ hM0,
        div_mul_cancel₀ _ hM0, div_mul_cancel₀ _ hM0, div_mul_cancel₀ _ hM0]
    · show MemPrefix.convert .Peta b = b / 1024 / 1024 / 1024 / 1024 / 1024 / 1024 * 1024
      rw [MemPrefix.convert, MemPrefix.rank, hM]
      rw [div_div, div_div, div_div, div_div, div_div]
      rw [div_mul_eq_mul_div, div_eq_div_iff (by norm_num) (by norm_num)]
      ring

/-- C10 witness: 2048 bytes scale to `(2, Kilo)` with every conjunct
evaluated. -/
theorem c10_find_best_exact_witness :
    (0 : ℚ) ≤ 2048 ∧
    ((MemPrefix.find_best 2048).1 * 1024 ^ (MemPrefix.find_best 2048).2.rank = 2048 ∧
     MemPrefix.convert (MemPrefix.find_best 2048).2 2048 = (MemPrefix.find_best 2048).1 ∧
     ((MemPrefix.find_best 2048).2 ≠ MemPrefix.Peta →
       (MemPrefix.find_best 2048).1 < 1024)) :=
  ⟨by norm_num, c10_find_best_exact 2048 (by norm_num)⟩

/-- C7: selecting the current column flips the direction, selecting a
different column installs it with its own default direction; from the
default state (Cpu, Descending), selecting Cpu yields (Cpu, Ascending)
and selecting Pid yields (Pid, Ascending). -/
theorem c7_select_column_toggle (app : App) (col C : Column) (dir : SortDirection)
    (h : app.input_state = .ProcessesSortSelection col dir) :
    ((change_processes_sort_into app C).input_state =
      if col = C then InputState.ProcessesSortSelection col dir.reversed
      else .ProcessesSortSelection C C.default_sort_direction) ∧
    (handle_key_events ⟨.Char 'c', noMods, .Press⟩ sampleApp).input_state =
      .ProcessesSortSelection .Cpu .Ascending ∧
    (handle_key_events ⟨.Char 'p', noMods, .Press⟩ sampleApp).input_state =
      .ProcessesSortSelection .Pid .Ascending := by
  refine ⟨?_, by decide, by decide⟩
  simp only [change_processes_sort_into, h]
  split_ifs with hc
  · rfl
  · rfl

/-- C7 witness: from (Name, Ascending), selecting Pid installs Pid with
its default ascending direction. -/
theorem c7_select_column_toggle_witness :
    sampleSortApp.input_state = InputState.ProcessesSortSelection .Name .Ascending ∧
    (((change_processes_sort_into sampleSortApp .Pid).input_state =
        if Column.Name = Column.Pid then
          InputState.ProcessesSortSelection .Name SortDirection.Ascending.reversed
        else .ProcessesSortSelection .Pid Column.Pid.default_sort_direction) ∧
     (handle_key_events ⟨.Char 'c', noMods, .Press⟩ sampleApp).input_state =
       .ProcessesSortSelection .Cpu .Ascending ∧
     (handle_key_events ⟨.Char 'p', noMods, .Press⟩ sampleApp).input_state =
       .ProcessesSortSelection .Pid .Ascending) :=
  ⟨rfl, c7_select_column_toggle sampleSortApp .Name .Pid .Ascending rfl⟩

/-- C9: Ctrl-C is handled before any state-specific dispatch, in every
interaction state: it only clears the running flag and leaves the whole
application state (interaction state, search text, sampling state)
unchanged. -/
theorem c9_quit_any_state (app : App) (e : KeyEvent)
    (hcode : e.code = KeyCode.Char 'c' ∨ e.code = KeyCode.Char 'C')
    (hmods : e.modifiers = KeyModifiers.CONTROL) :
    handle_key_events e app = { app with running := false } := by
  rw [handle_key_events, if_pos ⟨hcode, hmods⟩]
  rfl

/-- C9 witness: Ctrl-C on the sample application in sort-selection
state. -/
theorem c9_quit_any_state_witness :
    (ctrlCKey.code = KeyCode.Char 'c' ∨ ctrlCKey.code = KeyCode.Char 'C') ∧
    ctrlCKey.modifiers = KeyModifiers.CONTROL ∧
    handle_key_events ctrlCKey sampleSortApp = { sampleSortApp with running := false } :=
  ⟨Or.inl rfl, rfl, c9_quit_any_state sampleSortApp ctrlCKey (Or.inl rfl) rfl⟩

/-- C8: a tick on which the disk enumeration failed treats the result as
empty, leaves every disk device record (and its histories) in place, and
completes normally. -/
theorem c8_disk_error_keeps_records (app : App) (input : TickInput)
    (h : input.disk_stats = none) :
    (App.tick input app).disks = app.disks := by
  unfold App.tick
  split <;> simp [diskRefresh, h]

/-- C8 witness: the failed-enumeration tick on the sample application. -/
theorem c8_disk_error_keeps_records_witness :
    failedDiskTick.disk_stats = none ∧
    (App.tick failedDiskTick sampleApp).disks = sampleApp.disks :=
  ⟨rfl, c8_disk_error_keeps_records sampleApp failedDiskTick rfl⟩

/-- C5: when less than the minimum CPU update interval has elapsed, the
tick leaves every per-core CPU window and the refresh timestamp
unchanged, while the memory window, the process snapshot and the disk
table are still refreshed. -/
theorem c5_cpu_skipped_below_min_interval (app : App) (input : TickInput)
    (h : input.now - app.last_refresh < MINIMUM_CPU_UPDATE_INTERVAL) :
    (App.tick input app).cpu_history = app.cpu_history ∧
    (App.tick input app).last_refresh = app.last_refresh ∧
    (App.tick input app).mem_history =
      popPush app.mem_history (app.memPfx.convert input.used_memory) ∧
    (App.tick input app).processes = input.processes ∧
    (App.tick input app).disks = diskRefresh app.is_disk input.disk_stats app.disks := by
  have hn : ¬ MINIMUM_CPU_UPDATE_INTERVAL ≤ input.now - app.last_refresh := not_le.mpr h
  unfold App.tick
  rw [if_neg hn]
  exact ⟨rfl, rfl, rfl, rfl, rfl⟩

/-- C5 witness: a tick 10ms after construction (interval 200ms). -/
theorem c5_cpu_skipped_witness :
    earlyTick.now - sampleApp.last_refresh < MINIMUM_CPU_UPDATE_INTERVAL ∧
    ((App.tick earlyTick sampleApp).cpu_history = sampleApp.cpu_history ∧
     (App.tick earlyTick sampleApp).last_refresh = sampleApp.last_refresh ∧
     (App.tick earlyTick sampleApp).mem_history =
       popPush sampleApp.mem_history (sampleApp.memPfx.convert earlyTick.used_memory) ∧
     (App.tick earlyTick sampleApp).processes = earlyTick.processes ∧
     (App.tick earlyTick sampleApp).disks =
       diskRefresh sampleApp.is_disk earlyTick.disk_stats sampleApp.disks) :=
  ⟨by decide, c5_cpu_skipped_below_min_interval sampleApp earlyTick (by decide)⟩

/-- Subtracting a zero previous counter is the identity on counters that
fit in 64 bits. -/
theorem wrapSub_zero (a : Nat) (h : a < USIZE_MOD) : wrapSub a 0 = a := by
  unfold wrapSub
  rw [Nat.zero_mod, Nat.sub_zero, Nat.mod_eq_of_lt h, Nat.add_mod_right,
    Nat.mod_eq_of_lt h]

/-- C3 counterexample: `sda` is present at construction with cumulative
`(100, 50)`; its first tick reads `(150, 80)` and pushes the increment
`(50, 30)`, not the full cumulative value `(150, 80)` the claim
predicts. -/
theorem c3_startup_device_counterexample :
    lookupDisk (App.tick sampleTick sampleApp).disks "sda" =
      some (⟨150, 80⟩, List.replicate 63 DiskInfo.zero ++ [⟨50, 30⟩]) ∧
    (⟨50, 30⟩ : DiskInfo) ≠ ⟨150, 80⟩ := by
  constructor
  · decide
  · decide

/-- C3 amended: a device first observed after construction is created
with a zero previous value, so its first delta is its full cumulative
reading; a device present at construction is stored with the
construction-time reading as previous value (and an all-zero history),
so its first delta is the increment since construction. -/
theorem c3_first_delta_amended (m : List (String × DiskInfo × List DiskInfo))
    (name : String) (c : DiskInfo) (isDisk : String → Bool) (init : InitInput)
    (hnew : lookupDisk m name = none)
    (hr : c.r_sectors < USIZE_MOD) (hw : c.w_sectors < USIZE_MOD) :
    lookupDisk (updateAssoc m name c) name =
      some (c, List.replicate (HISTORY_LEN - 1) DiskInfo.zero ++ [c]) ∧
    (App.new isDisk init).disks =
      ((init.disk_stats.getD []).filter (fun nc => isDisk nc.1)).map
        (fun nc => (nc.1, nc.2, List.replicate HISTORY_LEN DiskInfo.zero)) := by
  refine ⟨?_, rfl⟩
  induction m with
  | nil =>
    obtain ⟨cr, cw⟩ := c
    simp only [updateAssoc, diskEntryUpdate, popPush, lookupDisk, if_pos,
      DiskInfo.zero]
    rw [wrapSub_zero cr hr, wrapSub_zero cw hw,
      show List.drop 1 (List.replicate HISTORY_LEN (⟨0, 0⟩ : DiskInfo)) =
        List.replicate (HISTORY_LEN - 1) (⟨0, 0⟩ : DiskInfo) from by decide]
  | cons p rest ih =>
    obtain ⟨n, e⟩ := p
    by_cases hn : n = name
    · rw [lookupDisk, if_pos hn] at hnew
      exact absurd hnew (by simp)
    · rw [lookupDisk, if_neg hn] at hnew
      rw [updateAssoc, if_neg hn, lookupDisk, if_neg hn]
      exact ih hnew

/-- C3 amended witness: a device `sdb` absent from the empty table gets
its full cumulative reading `(7, 3)` as first delta, and the sample
construction stores `sda`'s construction-time reading as previous. -/
theorem c3_first_delta_amended_witness :
    lookupDisk [] "sdb" = none ∧
    (7 : Nat) < USIZE_MOD ∧ (3 : Nat) < USIZE_MOD ∧
    (lookupDisk (updateAssoc [] "sdb" ⟨7, 3⟩) "sdb" =
        some (⟨7, 3⟩, List.replicate (HISTORY_LEN - 1) DiskInfo.zero ++ [⟨7, 3⟩]) ∧
     (App.new (fun _ => true) sampleInit).disks =
       ((sampleInit.disk_stats.getD []).filter (fun _ => true)).map
         (fun nc => (nc.1, nc.2, List.replicate HISTORY_LEN DiskInfo.zero))) :=
  ⟨rfl, by norm_num [USIZE_MOD], by norm_num [USIZE_MOD],
    c3_first_delta_amended [] "sdb" ⟨7, 3⟩ (fun _ => true) sampleInit rfl
      (by norm_num [USIZE_MOD]) (by norm_num [USIZE_MOD])⟩

/-- Evicting the oldest element and appending one sample keeps a full
window at its fixed length. -/
theorem popPush_length {α : Type} (w : List α) (x : α)
    (h : w.length = HISTORY_LEN) : (popPush w x).length = HISTORY_LEN := by
  simp only [popPush, List.length_append, List.length_drop,
    List.length_singleton, h]
  decide

/-- The zipped CPU refresh keeps every per-core window at its fixed
length. -/
theorem zipPopPush_length (hs : List (List ℚ)) (cs : List ℚ)
    (h : ∀ w ∈ hs, w.length = HISTORY_LEN) :
    ∀ w ∈ zipPopPush hs cs, w.length = HISTORY_LEN := by
  induction hs generalizing cs with
  | nil =>
    intro w hw
    simp only [zipPopPush] at hw
    exact absurd hw (List.not_mem_nil w)
  | cons hd tl ih =>
    cases cs with
    | nil => exact h
    | cons c cs2 =>
      intro w hw
      rw [zipPopPush] at hw
      rcases List.mem_cons.mp hw with h1 | h2
      · subst h1
        exact popPush_length hd c (h hd (List.mem_cons_self hd tl))
      · exact ih cs2 (fun v hv => h v (List.mem_cons_of_mem hd hv)) w h2

/-- A device entry update keeps the device's history window at its fixed
length. -/
theorem diskEntryUpdate_length (c : DiskInfo) (e : DiskInfo × List DiskInfo)
    (h : e.2.length = HISTORY_LEN) :
    (diskEntryUpdate c e).2.length = HISTORY_LEN := by
  obtain ⟨prev, hist⟩ := e
  exact popPush_length hist _ h

/-- Upserting one reported device keeps every history window in the
device table at its fixed length (a freshly created record starts at the
fixed length too). -/
theorem updateAssoc_length (m : List (String × DiskInfo × List DiskInfo))
    (name : String) (c : DiskInfo)
    (h : ∀ e ∈ m, e.2.2.length = HISTORY_LEN) :
    ∀ e ∈ updateAssoc m name c, e.2.2.length = HISTORY_LEN := by
  induction m with
  | nil =>
    intro e he
    simp only [updateAssoc, List.mem_singleton] at he
    subst he
    exact diskEntryUpdate_length c _ (by simp [HISTORY_LEN])
  | cons p rest ih =>
    obtain ⟨n, e0⟩ := p
    intro e he
    rw [updateAssoc] at he
    by_cases hn : n = name
    · rw [if_pos hn] at he
      rcases List.mem_cons.mp he with h1 | h2
      · subst h1
        exact diskEntryUpdate_length c e0 (h (n, e0) (List.mem_cons_self _ _))
      · exact h e (List.mem_cons_of_mem _ h2)
    · rw [if_neg hn] at he
      rcases List.mem_cons.mp he with h1 | h2
      · subst h1
        exact h (n, e0) (List.mem_cons_self _ _)
      · exact ih (fun v hv => h v (List.mem_cons_of_mem _ hv)) e h2

/-- Folding any sequence of reported devices into the table keeps every
history window at its fixed length. -/
theorem foldl_updateAssoc_length (l : List (String × DiskInfo)) :
    ∀ m, (∀ e ∈ m, e.2.2.length = HISTORY_LEN) →
      ∀ e ∈ l.foldl (fun acc nc => updateAssoc acc nc.1 nc.2) m,
        e.2.2.length = HISTORY_LEN := by
  induction l with
  | nil => intro m h; exact h
  | cons p rest ih =>
    intro m h
    simp only [List.foldl_cons]
    exact ih _ (updateAssoc_length m p.1 p.2 h)

/-- The whole disk refresh keeps every history window at its fixed
length. -/
theorem diskRefresh_length (isDisk : String → Bool)
    (stats : Option (List (String × DiskInfo)))
    (m : List (String × DiskInfo × List DiskInfo))
    (h : ∀ e ∈ m, e.2.2.length = HISTORY_LEN) :
    ∀ e ∈ diskRefresh isDisk stats m, e.2.2.length = HISTORY_LEN := by
  unfold diskRefresh
  exact foldl_updateAssoc_length _ m h

/-- A freshly constructed application satisfies the fixed-length window
invariant. -/
theorem windowsInv_new (isDisk : String → Bool) (init : InitInput) :
    windowsInv (App.new isDisk init) := by
  refine ⟨?_, by simp [App.new], ?_⟩
  · intro w hw
    rw [List.eq_of_mem_replicate hw]
    exact List.length_replicate _ _
  · intro e he
    obtain ⟨nc, hnc, rfl⟩ := List.mem_map.mp he
    exact List.length_replicate _ _

/-- One tick preserves the fixed-length window invariant. -/
theorem windowsInv_tick (app : App) (input : TickInput)
    (h : windowsInv app) : windowsInv (App.tick input app) := by
  obtain ⟨hcpu, hmem, hdisk⟩ := h
  unfold App.tick
  split
  · exact ⟨zipPopPush_length app.cpu_history input.cpu_usages hcpu,
      popPush_length _ _ hmem,
      diskRefresh_length _ _ _ hdisk⟩
  · exact ⟨hcpu, popPush_length _ _ hmem, diskRefresh_length _ _ _ hdisk⟩

/-- Any sequence of ticks preserves the fixed-length window invariant. -/
theorem windowsInv_fold (ticks : List TickInput) :
    ∀ a, windowsInv a →
      windowsInv (ticks.foldl (fun a i => App.tick i a) a) := by
  induction ticks with
  | nil => intro a h; exact h
  | cons t rest ih =>
    intro a h
    simp only [List.foldl_cons]
    exact ih _ (windowsInv_tick a t h)

/-- C4: immediately after construction every window is pre-filled with
zero samples, and after any sequence of ticks every history window (each
per-core CPU window, the memory window, every device record's window)
still has length exactly `HISTORY_LEN`. -/
theorem c4_history_windows_fixed_length (isDisk : String → Bool)
    (init : InitInput) (ticks : List TickInput) :
    (∀ w ∈ (App.new isDisk init).cpu_history, w = List.replicate HISTORY_LEN 0) ∧
    (App.new isDisk init).mem_history = List.replicate HISTORY_LEN 0 ∧
    (∀ e ∈ (App.new isDisk init).disks, e.2.2 = List.replicate HISTORY_LEN DiskInfo.zero) ∧
    windowsInv (App.new isDisk init) ∧
    windowsInv (ticks.foldl (fun a i => App.tick i a) (App.new isDisk init)) := by
  refine ⟨?_, rfl, ?_, windowsInv_new isDisk init,
    windowsInv_fold ticks _ (windowsInv_new isDisk init)⟩
  · intro w hw
    exact List.eq_of_mem_replicate hw
  · intro e he
    obtain ⟨nc, hnc, rfl⟩ := List.mem_map.mp he
    rfl

/-- Pressing `/` in sort-selection state saves the current column and
direction and enters search mode with empty text. -/
theorem enter_search_state (app : App) (col : Column) (dir : SortDirection)
    (h : app.input_state = .ProcessesSortSelection col dir) :
    (handle_key_events enterSearchKey app).input_state =
      .ProcessesSearch (some col) (some dir) [] := by
  simp [handle_key_events, enterSearchKey, handleSortKey, h, noMods,
    KeyModifiers.CONTROL]

/-- Appending a character in search mode touches only the text. -/
theorem insert_search_state (c : Char) (app : App) (oc : Option Column)
    (od : Option SortDirection) (s : List Char)
    (h : app.input_state = .ProcessesSearch oc od s) :
    (handle_key_events (EditCmd.toEvent (.insert c)) app).input_state =
      .ProcessesSearch oc od (s ++ [c]) := by
  simp [handle_key_events, EditCmd.toEvent, handleSearchKey, h, noMods,
    KeyModifiers.CONTROL]

/-- Backspace in search mode touches only the text. -/
theorem backspace_search_state (app : App) (oc : Option Column)
    (od : Option SortDirection) (s : List Char)
    (h : app.input_state = .ProcessesSearch oc od s) :
    (handle_key_events (EditCmd.toEvent .backspace) app).input_state =
      .ProcessesSearch oc od s.dropLast := by
  simp [handle_key_events, EditCmd.toEvent, handleSearchKey, h, noMods,
    KeyModifiers.CONTROL]

/-- Word-erase (Ctrl-W) in search mode clears the text and nothing
else. -/
theorem wordErase_search_state (app : App) (oc : Option Column)
    (od : Option SortDirection) (s : List Char)
    (h : app.input_state = .ProcessesSearch oc od s) :
    (handle_key_events (EditCmd.toEvent .wordErase) app).input_state =
      .ProcessesSearch oc od [] := by
  simp [handle_key_events, EditCmd.toEvent, handleSearchKey, h, noMods,
    KeyModifiers.CONTROL]

/-- Any sequence of text-editing commands keeps search mode and the
saved column and direction, changing only the text. -/
theorem searchEdits_state (edits : List EditCmd) :
    ∀ (app : App) (oc : Option Column) (od : Option SortDirection)
      (s : List Char), app.input_state = .ProcessesSearch oc od s →
      ∃ t, (edits.foldl (fun a ed => handle_key_events ed.toEvent a) app).input_state =
        .ProcessesSearch oc od t := by
  induction edits with
  | nil => intro app oc od s h; exact ⟨s, h⟩
  | cons ed rest ih =>
    intro app oc od s h
    simp only [List.foldl_cons]
    cases ed with
    | insert c =>
      exact ih _ oc od (s ++ [c]) (insert_search_state c app oc od s h)
    | backspace =>
      exact ih _ oc od s.dropLast (backspace_search_state app oc od s h)
    | wordErase =>
      exact ih _ oc od [] (wordErase_search_state app oc od s h)

/-- Esc in search mode restores the saved sort selection exactly when
both saved fields are present. -/
theorem cancel_restores (app : App) (col : Column) (dir : SortDirection)
    (s : List Char)
    (h : app.input_state = .ProcessesSearch (some col) (some dir) s) :
    (handle_key_events cancelKey app).input_state =
      .ProcessesSortSelection col dir := by
  simp [handle_key_events, cancelKey, handleSearchKey, h, noMods,
    KeyModifiers.CONTROL]

/-- C6: entering search from any sort selection, editing the text with
any sequence of append/backspace/word-erase commands, then cancelling
restores exactly the saved column and direction. -/
theorem c6_search_cancel_restores_sort (app : App) (col : Column)
    (dir : SortDirection) (edits : List EditCmd)
    (h : app.input_state = .ProcessesSortSelection col dir) :
    (handle_key_events cancelKey
      (edits.foldl (fun a ed => handle_key_events ed.toEvent a)
        (handle_key_events enterSearchKey app))).input_state =
      .ProcessesSortSelection col dir := by
  obtain ⟨t, ht⟩ := searchEdits_state edits (handle_key_events enterSearchKey app)
    (some col) (some dir) [] (enter_search_state app col dir h)
  exact cancel_restores _ col dir t ht

/-- C6 witness: from (Name, Ascending), search for "abc", cancel. -/
theorem c6_search_cancel_restores_sort_witness :
    sampleSortApp.input_state = InputState.ProcessesSortSelection .Name .Ascending ∧
    (handle_key_events cancelKey
      (([EditCmd.insert 'a', EditCmd.insert 'b', EditCmd.insert 'c']).foldl
        (fun a ed => handle_key_events ed.toEvent a)
        (handle_key_events enterSearchKey sampleSortApp))).input_state =
      InputState.ProcessesSortSelection .Name .Ascending :=
  ⟨rfl, c6_search_cancel_restores_sort sampleSortApp .Name .Ascending
    [EditCmd.insert 'a', EditCmd.insert 'b', EditCmd.insert 'c'] rfl⟩
